import Mathlib

/-!
Verification of the MediaSquash batch media-compression pipeline.

The JavaScript sources are shallowly embedded: file names and paths are
lists of characters ( `Str` ), filesystem state is a list of existing
paths or an abstract lookup function, sizes are natural numbers, and the
bounded worker pool is a labelled transition system whose interleavings
over-approximate the Node.js event-loop schedules.  Each embedded
definition mirrors one function of the repository; the theorems at the
end of the file settle the specification claims against them.
-/

/-- Filenames and paths are modelled as lists of characters, matching the
JavaScript string operations ( `startsWith`, `endsWith`, `toLowerCase`,
`length` ) used by the sources. -/
abbrev Str := List Char

/-- Coercion from Lean string literals into the filename model. -/
def strOf (s : String) : Str := s.toList

/-- Lowercasing of a filename, modelling `String.prototype.toLowerCase` for
the ASCII names the tool manipulates. -/
def lowerStr (s : Str) : Str := s.map Char.toLower

/-- Supported image extensions, from `src/utils.js` ( `IMAGE_EXTENSIONS` ). -/
def IMAGE_EXTENSIONS : List Str :=
  [strOf ".jpg", strOf ".jpeg", strOf ".png", strOf ".webp", strOf ".avif",
   strOf ".tiff", strOf ".gif", strOf ".heic", strOf ".heif"]

/-- Supported video extensions, from `src/utils.js` ( `VIDEO_EXTENSIONS` ). -/
def VIDEO_EXTENSIONS : List Str :=
  [strOf ".mp4", strOf ".mkv", strOf ".avi", strOf ".mov", strOf ".wmv",
   strOf ".flv", strOf ".webm", strOf ".3gp", strOf ".m4v", strOf ".mpeg",
   strOf ".mpg"]

/-- Embedding of Node's `path.extname` restricted to bare file names (no
directory separators): the suffix starting at the last dot, provided that
dot is not the leading character; otherwise the empty string. -/
def extname (s : Str) : Str :=
  if (s.reverse.takeWhile (fun c => c ≠ '.')).length + 2 ≤ s.length then
    s.drop (s.length - (s.reverse.takeWhile (fun c => c ≠ '.')).length - 1)
  else []

/-- Predicate from `src/utils.js` `isImage`: the lowercased extension is a
supported image extension. -/
def isImage (s : Str) : Prop := lowerStr (extname s) ∈ IMAGE_EXTENSIONS

/-- Predicate from `src/utils.js` `isVideo`: the lowercased extension is a
supported video extension. -/
def isVideo (s : Str) : Prop := lowerStr (extname s) ∈ VIDEO_EXTENSIONS

/-! ### Capture-date arithmetic (claim C5)

`src/utils.js` `getCaptureDate` turns a sidecar timestamp (seconds) into
epoch milliseconds and shifts it by the process's UTC offset; the shifted
value is then read back through the JavaScript `Date` UTC accessors by
`formatDateForFilename`.  Times are embedded as integer epoch
milliseconds; the UTC calendar accessors are embedded with the standard
proleptic-Gregorian civil-from-days conversion, which is exactly the
ECMAScript specification of `getUTCFullYear` and friends. -/

/-- Embedding of the `toLocalAsUTC` helper of `src/utils.js`
`getCaptureDate`: `new Date(date.getTime() - date.getTimezoneOffset() * 60000)`,
with the offset in minutes sampled from the process. -/
def toLocalAsUTC (timeMs tzOffsetMin : Int) : Int := timeMs - tzOffsetMin * 60000

/-- Embedding of the sidecar branch of `getCaptureDate`:
`parseInt(jsonContent.photoTakenTime.timestamp, 10) * 1000`. -/
def sidecarTimestampToMillis (tsSeconds : Int) : Int := tsSeconds * 1000

/-- Calendar fields as read by the JavaScript `Date` UTC accessors
( `getUTCFullYear`, `getUTCMonth + 1`, `getUTCDate`, `getUTCHours`,
`getUTCMinutes`, `getUTCSeconds` ). -/
structure DateFields where
  year : Int
  month : Nat
  day : Nat
  hour : Nat
  minute : Nat
  second : Nat
deriving DecidableEq, Repr

/-- Civil date from days since the Unix epoch (proleptic Gregorian),
the arithmetic behind the ECMAScript `Date` UTC calendar accessors. -/
def civilFromDays (z0 : Int) : Int × Nat × Nat :=
  let z := z0 + 719468
  let era := z.fdiv 146097
  let doe := (z - era * 146097).toNat
  let yoe := (doe - doe / 1461 + doe / 36524 - doe / 146096) / 365
  let y : Int := (yoe : Int) + era * 400
  let doy := doe - (365 * yoe + yoe / 4 - yoe / 100)
  let mp := (5 * doy + 2) / 153
  let d := doy - (153 * mp + 2) / 5 + 1
  let m := if mp < 10 then mp + 3 else mp - 9
  (if m ≤ 2 then y + 1 else y, m, d)

/-- UTC calendar fields of an epoch-milliseconds instant, as the
JavaScript `Date` UTC accessors report them. -/
def getUTCFields (ms : Int) : DateFields :=
  let day := ms.fdiv 86400000
  let msOfDay := (ms - day * 86400000).toNat
  let ymd := civilFromDays day
  { year := ymd.1, month := ymd.2.1, day := ymd.2.2,
    hour := msOfDay / 3600000,
    minute := msOfDay % 3600000 / 60000,
    second := msOfDay % 60000 / 1000 }

/-! ### Never-worse-than-original size policy (claim C2) -/

/-- Which bytes end up at the planned output path after the size policy. -/
inductive ArtifactBytes
  | transcoded
  | original
deriving DecidableEq, Repr

/-- Embedding of the end-of-transcode policy of `src/videoCompressor.js`
`compressVideo`: `isConvertingFormat = inputExt !== outputExt`; when
`compressedSize > originalSize && !isConvertingFormat` the original bytes
are copied over the output and the reported size becomes the original
size; otherwise the transcoded artifact and its size are kept.
Extensions are the lowercased dotted extensions of the two paths. -/
def videoSizePolicy (originalSize compressedSize : Nat) (inputExt outputExt : Str) :
    ArtifactBytes × Nat :=
  if compressedSize > originalSize ∧ inputExt = outputExt then
    (ArtifactBytes.original, originalSize)
  else
    (ArtifactBytes.transcoded, compressedSize)

/-- Embedding of the corresponding paths of `src/imageCompressor.js`
`compressImage`: a `heic` / `heif` input takes the `convertHeicToJpeg`
early return, which keeps the converted artifact and its size and never
reaches the size policy; otherwise the target format is the output
extension, or the input extension when the output path has none
( `targetFormat = outputExt || inputExt` ), and
`isConvertingFormat = inputExt !== targetFormat` guards the strict
`compressedSize > originalSize` substitution.  Extensions here are
lowercase and dot-free ( `slice(1)` in the source). -/
def imageSizePolicy (originalSize compressedSize : Nat) (inputExt outputExt : Str) :
    ArtifactBytes × Nat :=
  if inputExt = strOf "heic" ∨ inputExt = strOf "heif" then
    (ArtifactBytes.transcoded, compressedSize)
  else
    let targetFormat := if outputExt = [] then inputExt else outputExt
    if compressedSize > originalSize ∧ inputExt = targetFormat then
      (ArtifactBytes.original, originalSize)
    else
      (ArtifactBytes.transcoded, compressedSize)

/-! ### Transcode-failure fallback (claim C3) -/

/-- Kind of a media item, as partitioned by the orchestrators. -/
inductive MediaKind
  | image
  | video
deriving DecidableEq, Repr

/-- Contents of the planned output path after failure handling. -/
inductive PathContent
  | absent
  | originalBytes
  | partialBytes
deriving DecidableEq, Repr

/-- Embedding of the `catch` block of `processSingleFile` in the GUI
server: for a failed video any existing output artifact is unlinked and
nothing replaces it; for a failed image the original file is copied to
the output path.  The argument is what the transcoder left at the path. -/
def guiFailureCleanup (kind : MediaKind) (_leftAtPath : PathContent) : PathContent :=
  match kind with
  | MediaKind.video => PathContent.absent
  | MediaKind.image => PathContent.originalBytes

/-! ### Run summary counting (claim C4) -/

/-- Per-item result as observed by the orchestrators: a successful
transcode with its sizes, or a failed transcode of an item of a given
original size. -/
inductive ItemOutcome
  | success (orig comp : Nat)
  | failure (orig : Nat)
deriving DecidableEq, Repr

/-- Counters of `processDirectory` in `src/index.js`. -/
structure CliTotals where
  successCount : Nat
  failCount : Nat
  totalOriginal : Nat
  totalCompressed : Nat
deriving DecidableEq, Repr

/-- Per-item counter update of `processDirectory`: a successful item adds
its sizes and increments `successCount`; a failed item is copied as the
original and the `catch` block also increments `successCount`, adding the
original size to both byte totals.  `failCount` is never touched. -/
def cliItemStep (s : CliTotals) (o : ItemOutcome) : CliTotals :=
  match o with
  | ItemOutcome.success orig comp =>
      { s with successCount := s.successCount + 1,
               totalOriginal := s.totalOriginal + orig,
               totalCompressed := s.totalCompressed + comp }
  | ItemOutcome.failure orig =>
      { s with successCount := s.successCount + 1,
               totalOriginal := s.totalOriginal + orig,
               totalCompressed := s.totalCompressed + orig }

/-- Summary of a CLI batch run over the settled per-item outcomes. -/
def cliRun (items : List ItemOutcome) : CliTotals :=
  items.foldl cliItemStep ⟨0, 0, 0, 0⟩

/-- Counters of `compressionState.results` in the GUI server. -/
structure GuiResults where
  success : Nat
  failed : Nat
  processed : Nat
  totalOriginal : Nat
  totalCompressed : Nat
deriving DecidableEq, Repr

/-- Per-item counter update of `processItem` in the GUI server: a
successful item increments `success` and adds its sizes; a failed item
increments `failed` and adds nothing; both increment `processed`. -/
def guiItemStep (s : GuiResults) (o : ItemOutcome) : GuiResults :=
  match o with
  | ItemOutcome.success orig comp =>
      { s with success := s.success + 1,
               processed := s.processed + 1,
               totalOriginal := s.totalOriginal + orig,
               totalCompressed := s.totalCompressed + comp }
  | ItemOutcome.failure _ =>
      { s with failed := s.failed + 1,
               processed := s.processed + 1 }

/-- Summary of a GUI run over the settled per-item outcomes. -/
def guiRun (items : List ItemOutcome) : GuiResults :=
  items.foldl guiItemStep ⟨0, 0, 0, 0, 0⟩

/-- The scenario of claim C4: five images and one video succeed with
concrete sizes, the remaining video's transcode fails. -/
def scenarioOutcomes : List ItemOutcome :=
  [ItemOutcome.success 100 40, ItemOutcome.success 100 41,
   ItemOutcome.success 100 42, ItemOutcome.success 100 43,
   ItemOutcome.success 100 44, ItemOutcome.success 9000 5000,
   ItemOutcome.failure 8000]

/-- Boolean test for a successful outcome (used to state summary counts). -/
def isSuccessOutcome : ItemOutcome → Bool
  | ItemOutcome.success _ _ => true
  | ItemOutcome.failure _ => false

/-- Boolean test for a failed outcome (used to state summary counts). -/
def isFailureOutcome : ItemOutcome → Bool
  | ItemOutcome.success _ _ => false
  | ItemOutcome.failure _ => true

/-! ### Encoder detection and negotiation (claims C7) -/

/-- The encoder identifiers of `src/hwEncoder.js`. -/
inductive Encoder
  | nvenc
  | amf
  | qsv
  | x264
  | x265
deriving DecidableEq, Repr, Fintype

/-- Availability map returned by `detectAvailableEncoders`. -/
structure EncoderAvail where
  nvenc : Bool
  amf : Bool
  qsv : Bool
  x264 : Bool
  x265 : Bool
deriving DecidableEq, Repr

/-- Availability of one encoder id in an availability map. -/
def EncoderAvail.get (a : EncoderAvail) : Encoder → Bool
  | Encoder.nvenc => a.nvenc
  | Encoder.amf => a.amf
  | Encoder.qsv => a.qsv
  | Encoder.x264 => a.x264
  | Encoder.x265 => a.x265

/-- Embedding of `detectAvailableEncoders` of `src/hwEncoder.js` (cache
aside): each hardware candidate is marked available exactly when it is
present in the `ffmpeg -encoders` listing ( `listed` ) and its one-frame
smoke test succeeds ( `smoke` ); the software encoders are available
unconditionally. -/
def detectAvailableEncoders (listed smoke : Encoder → Bool) : EncoderAvail :=
  { nvenc := listed Encoder.nvenc && smoke Encoder.nvenc,
    amf := listed Encoder.amf && smoke Encoder.amf,
    qsv := listed Encoder.qsv && smoke Encoder.qsv,
    x264 := true,
    x265 := true }

/-- Embedding of `getBestEncoder` of `src/hwEncoder.js`. -/
def getBestEncoder (a : EncoderAvail) : Encoder :=
  if a.nvenc then Encoder.nvenc
  else if a.amf then Encoder.amf
  else if a.qsv then Encoder.qsv
  else Encoder.x264

/-- Embedding of the fallback cascade of `getEncoderConfig` of
`src/hwEncoder.js` for an explicitly requested encoder: three sequential
conditionals rewrite the requested id, each emitting one warning; the
second component collects the warnings in order. -/
def getEncoderConfig (a : EncoderAvail) (requested : Encoder) : Encoder × List Encoder :=
  let s1 : Encoder × List Encoder :=
    if requested = Encoder.nvenc ∧ a.nvenc = false then
      (if a.amf then Encoder.amf else if a.qsv then Encoder.qsv else Encoder.x264,
       [Encoder.nvenc])
    else (requested, [])
  let s2 : Encoder × List Encoder :=
    if s1.1 = Encoder.amf ∧ a.amf = false then
      (if a.qsv then Encoder.qsv else Encoder.x264, s1.2 ++ [Encoder.amf])
    else s1
  if s2.1 = Encoder.qsv ∧ a.qsv = false then
    (Encoder.x264, s2.2 ++ [Encoder.qsv])
  else s2

/-- The fixed hardware-to-software priority order of the spec:
NVENC, then AMF, then QuickSync, then software x264. -/
def priorityOrder : List Encoder :=
  [Encoder.nvenc, Encoder.amf, Encoder.qsv, Encoder.x264]

/-- Modelled from the spec's words (for comparison with the code): the
profiles strictly after `e` in the fixed priority order. -/
def priorityAfter (e : Encoder) : List Encoder :=
  (priorityOrder.dropWhile (fun x => x ≠ e)).drop 1

/-- Modelled from the spec's words (for comparison with the code): the
next available profile in the fixed priority order after `e`. -/
def specNextProfile (a : EncoderAvail) (e : Encoder) : Option Encoder :=
  (priorityAfter e).find? (fun x => a.get x)

/-! ### Output-path collision resolution (claim C1) -/

/-- Numeric collision suffix: candidate `0` is `name + ext`, candidate
`k > 0` is `name(k) + ext`, exactly as built by the `while` loops of
`getFinalOutputPath` ( `src/index.js` ) and `processSingleFile` uses the
same shape with `_k`; the CLI form with parentheses is modelled. -/
def candidatePath (name ext : Str) : Nat → Str
  | 0 => name ++ ext
  | Nat.succ k => name ++ [ '(' ] ++ strOf (Nat.repr (k + 1)) ++ [ ')' ] ++ ext

/-- Embedding of the collision `while` loop of `getFinalOutputPath` in
`src/index.js`: starting from counter `k`, keep incrementing while the
candidate exists on disk; the loop is given explicit fuel and the only
disk probe is `fs.existsSync`, modelled by membership in `disk`. -/
def collisionLoop (disk : List Str) (name ext : Str) : Nat → Nat → Option Str
  | 0, _ => none
  | Nat.succ fuel, k =>
      let cand := candidatePath name ext k
      if cand ∈ disk then collisionLoop disk name ext fuel (k + 1) else some cand

/-- Two items planned concurrently: with bounded concurrency at least two,
both image tasks call `determineTargetFile` before either output file has
been written, so both collision loops probe the same disk snapshot.  The
result is the pair of final paths the two items claim. -/
def concurrentPlanPair (disk : List Str) (name1 ext1 name2 ext2 : Str) (fuel : Nat) :
    Option (Str × Str) :=
  match collisionLoop disk name1 ext1 fuel 0, collisionLoop disk name2 ext2 fuel 0 with
  | some p1, some p2 => some (p1, p2)
  | _, _ => none

/-- Embedding of the `catch` blocks of `processDirectory` in
`src/index.js` (claim C3): the handler calls `determineTargetFile`
again, which re-runs the `fs.existsSync` collision loop against the
current disk — now including whatever artifact the failed transcode
left behind — and the original bytes are copied to the re-planned path
( `fs.copyFileSync` ); nothing is deleted. -/
def cliFailureReplan (disk : List Str) (name ext : Str) (fuel : Nat) : Option Str :=
  collisionLoop disk name ext fuel 0

/-! ### The bounded worker pool (claims C8, C9, C10)

`parallelProcess` in `src/utils.js` and `processWithWorkerPool` in the
GUI server share one pattern: a loop launches tasks in submission order,
keeps the derived promises in an `executing` set, and, whenever the set
reaches the concurrency bound, awaits `Promise.race` until some task
settles; each settlement removes its promise from the set.  The GUI
variant additionally checks a shared cancellation flag at the top of the
loop.  The pattern is embedded as a labelled transition system whose
interleavings over-approximate the event-loop schedules: a launch is
enabled whenever tasks remain, the in-flight set is below the bound and
the flag is unset; any in-flight task may settle at any time. -/

/-- State of a worker-pool run: `next` tasks have been launched (the
loop pointer), `inFlight` holds the launched, unsettled task indices in
launch order, `settled` records settlements in completion order together
with the settled value, and `cancelled` is the shared flag. -/
structure PoolState (ω : Type) where
  next : Nat
  inFlight : List Nat
  settled : List (Nat × ω)
  cancelled : Bool
deriving DecidableEq, Repr

/-- Initial pool state: nothing launched, flag unset. -/
def PoolState.init (ω : Type) : PoolState ω :=
  { next := 0, inFlight := [], settled := [], cancelled := false }

/-- Transitions of `parallelProcess` (and of the launch/settle part of
`processWithWorkerPool`) for `N` tasks at concurrency `C`: `f i` is the
settled value of task `i` (the derived promise's fulfilment value). -/
inductive PoolStep {ω : Type} (N C : Nat) (f : Nat → ω) : PoolState ω → PoolState ω → Prop
  | launch (s : PoolState ω) (hc : s.cancelled = false) (hn : s.next < N)
      (hf : s.inFlight.length < C) :
      PoolStep N C f s { s with next := s.next + 1, inFlight := s.inFlight ++ [s.next] }
  | settle (s : PoolState ω) (i : Nat) (hi : i ∈ s.inFlight) :
      PoolStep N C f s { s with inFlight := s.inFlight.erase i,
                                settled := s.settled ++ [(i, f i)] }

/-- Transitions of `processWithWorkerPool` in the GUI server: the base
pool transitions plus the external cancellation event that sets the
shared `compressionState.shouldCancel` flag (checked by the loop before
each launch). -/
inductive PoolStepC {ω : Type} (N C : Nat) (f : Nat → ω) : PoolState ω → PoolState ω → Prop
  | base (s t : PoolState ω) : PoolStep N C f s t → PoolStepC N C f s t
  | cancel (s : PoolState ω) (hc : s.cancelled = false) :
      PoolStepC N C f s { s with cancelled := true }

/-- Reachability of a pool state from the initial state. -/
def PoolReachable {ω : Type} (N C : Nat) (f : Nat → ω) (s : PoolState ω) : Prop :=
  Relation.ReflTransGen (PoolStep N C f) (PoolState.init ω) s

/-- A settled task's recorded value, looked up by task index: models
reading the `results[i]` promise after it resolved. -/
def settledLookup {ω : Type} (settled : List (Nat × ω)) (i : Nat) : Option ω :=
  (settled.find? (fun p => p.1 == i)).map Prod.snd

/-- The array `Promise.all(results)` resolves with: one slot per launched
task, in submission order, each holding the task's recorded value. -/
def resultsArray {ω : Type} (s : PoolState ω) : List (Option ω) :=
  (List.range s.next).map (settledLookup s.settled)

/-- Fulfilment value of one derived promise of `parallelProcess`: the
processor's value on fulfilment, or the `{error, item}` record built by
the `.catch` handler on rejection. -/
inductive SettledValue (α ε ι : Type)
  | ok (v : α)
  | failed (error : ε) (item : ι)
deriving DecidableEq, Repr

/-- Settled value of task `i`: apply the processor to the `i`-th item and
wrap rejection into the `{error, item}` record (out-of-range indices are
never launched; they get a junk value). -/
def taskOutcome {α ε ι : Type} [Inhabited α] (processor : ι → Except ε α)
    (items : List ι) (i : Nat) : SettledValue α ε ι :=
  match items.get? i with
  | some it =>
      match processor it with
      | Except.ok v => SettledValue.ok v
      | Except.error e => SettledValue.failed e it
  | none => SettledValue.ok default

/-! ### Sidecar fuzzy matching (claim C6) -/

/-- The exact sidecar suffix probed by `findJsonSidecar`. -/
def jsonExtStr : Str := strOf ".json"

/-- The supplemental-metadata sidecar suffix probed by `findJsonSidecar`. -/
def suppJsonStr : Str := strOf ".supplemental-metadata.json"

/-- Embedding of `path.basename(jsonFile, '.json')` on a bare file name:
Node strips the extension only when the name ends with it case
sensitively and is not the extension itself. -/
def basenameNoJson (jsonFile : Str) : Str :=
  if jsonExtStr.isSuffixOf jsonFile = true ∧ jsonFile ≠ jsonExtStr then
    jsonFile.take (jsonFile.length - 5)
  else jsonFile

/-- Base name of the media file as computed inside `findJsonSidecar`:
`path.basename(filePath, extension)` with `extension = path.extname(filePath)`. -/
def mediaBase (fileName : Str) : Str :=
  fileName.take (fileName.length - (extname fileName).length)

/-- The JSON files of the directory as filtered by `findJsonSidecar`:
`files.filter(f => f.toLowerCase().endsWith('.json'))`. -/
def dirJsonFiles (dirFiles : List Str) : List Str :=
  dirFiles.filter (fun g => jsonExtStr.isSuffixOf (lowerStr g))

/-- One iteration of the fuzzy-match loop of `findJsonSidecar` in
`src/utils.js`: a JSON file starting with the full media file name takes
the best slot when strictly longer than the current best; otherwise, a
JSON file whose stripped base name is a prefix of the media base name
and at least 8 characters long competes on the same length slot. -/
def sidecarStep (fileName baseName : Str) (acc : Option Str × Nat) (jsonFile : Str) :
    Option Str × Nat :=
  let jsonBase := basenameNoJson jsonFile
  if fileName.isPrefixOf jsonFile then
    if acc.2 < jsonFile.length then (some jsonFile, jsonFile.length) else acc
  else
    if jsonBase.isPrefixOf baseName then
      if 8 ≤ jsonBase.length then
        if acc.2 < jsonFile.length then (some jsonFile, jsonFile.length) else acc
      else acc
    else acc

/-- Embedding of `findJsonSidecar` of `src/utils.js`, relative to one
directory listing `dirFiles` (bare names; `fs.existsSync` of the exact
candidates and the directory scan are reads of this listing): first the
two exact-name probes, then the fuzzy scan over the JSON files. -/
def findJsonSidecar (dirFiles : List Str) (fileName : Str) : Option Str :=
  if fileName ++ jsonExtStr ∈ dirFiles then some (fileName ++ jsonExtStr)
  else if fileName ++ suppJsonStr ∈ dirFiles then some (fileName ++ suppJsonStr)
  else
    ((dirJsonFiles dirFiles).foldl
      (sidecarStep fileName (mediaBase fileName)) (none, 0)).1

/-- Modelled from the spec's words (for comparison with the code): a
first-tier fuzzy match is a JSON file whose name starts with the full
media file name. -/
def tier1Match (fileName jsonFile : Str) : Prop := fileName <+: jsonFile

/-- Modelled from the spec's words (for comparison with the code): a
second-tier fuzzy match is a JSON file that is not a first-tier match and
whose base name (JSON suffix stripped) is a prefix of the media file's
base name and at least 8 characters long. -/
def tier2Match (fileName jsonFile : Str) : Prop :=
  ¬ fileName <+: jsonFile ∧ basenameNoJson jsonFile <+: mediaBase fileName ∧
    8 ≤ (basenameNoJson jsonFile).length

/-- A JSON file the fuzzy loop would take at all: either tier. -/
def anyTierMatch (fileName jsonFile : Str) : Prop :=
  tier1Match fileName jsonFile ∨ tier2Match fileName jsonFile

/-- Inductive invariant of the worker pool: the loop pointer never
passes `N`, the in-flight set never exceeds the concurrency bound, the
launched indices are exactly the union of in-flight and settled ones
(each exactly once), and every settled record carries its task's value. -/
def poolInv {ω : Type} (N C : Nat) (f : Nat → ω) (s : PoolState ω) : Prop :=
  s.next ≤ N ∧ s.inFlight.length ≤ C ∧
  (s.inFlight ++ s.settled.map Prod.fst).Perm (List.range s.next) ∧
  (∀ p ∈ s.settled, p.2 = f p.1)

/-- Date-derived base name shared by the two items of the C1
counterexample run (two photos with the same capture second). -/
def sampleDateName : Str := strOf "20210313-143211"

/-- Output paths chosen when two items with the same date-derived name
are planned concurrently against an empty output directory. -/
def concurrentSamplePair : Option (Str × Str) :=
  concurrentPlanPair [] sampleDateName (strOf ".jpg") sampleDateName (strOf ".jpg") 3

/-- The exact condition under which one iteration of the fuzzy-match
loop considers a JSON file at all: the first-tier test, or (the loop's
`else` branch) the second-tier tests. -/
def stepMatch (fileName baseName j : Str) : Prop :=
  fileName <+: j ∨
    (¬ fileName <+: j ∧ basenameNoJson j <+: baseName ∧
      8 ≤ (basenameNoJson j).length)

/-- Invariant of the fuzzy-match fold: either no file seen so far
matched and the accumulator is untouched, or the accumulator holds a
longest match among the seen files together with its length. -/
def sidecarAccGood (fileName baseName : Str) (seen : List Str)
    (acc : Option Str × Nat) : Prop :=
  (acc = (none, 0) ∧ ∀ j ∈ seen, ¬ stepMatch fileName baseName j) ∨
  (∃ m, acc = (some m, m.length) ∧ m ∈ seen ∧ stepMatch fileName baseName m ∧
    ∀ j ∈ seen, stepMatch fileName baseName j → j.length ≤ m.length)

/-! ## Theorems -/

/-- Claim C5, counterexample: for sidecar timestamp `1610549531` s and a
sampled offset of 300 minutes (UTC-5), the local-representation
transform of `getCaptureDate` does not produce the calendar fields
2021-01-13 08:12:11 claimed by the spec (the instant is actually
2021-01-13T14:52:11Z, not 13:12:11Z). -/
theorem c5_counterexample :
    getUTCFields (toLocalAsUTC (sidecarTimestampToMillis 1610549531) 300) ≠
      { year := 2021, month := 1, day := 13, hour := 8, minute := 12, second := 11 } := by
  decide

/-- Claim C5 (amended): for sidecar timestamp `1610549531` s
(2021-01-13T14:52:11Z) and a sampled offset of 300 minutes (UTC-5), the
local-representation transform yields a value whose UTC calendar-field
accessors read 2021-01-13 09:52:11. -/
theorem c5_local_representation :
    getUTCFields (toLocalAsUTC (sidecarTimestampToMillis 1610549531) 300) =
      { year := 2021, month := 1, day := 13, hour := 9, minute := 52, second := 11 } := by
  decide

/-- Claim C2, counterexample: a transcoded video of exactly the original
size with no format conversion in effect ( `.mp4` to `.mp4` ) "did not
shrink", yet the code keeps the transcoded artifact instead of
substituting a byte-for-byte copy of the original: the guard is the
strict `compressedSize > originalSize`. -/
theorem c2_counterexample :
    (videoSizePolicy 1000 1000 (strOf ".mp4") (strOf ".mp4")).1 ≠
      ArtifactBytes.original := by
  decide

/-- Claim C2 (amended): for non-HEIC/HEIF inputs, the original bytes
are substituted at the planned path (with reported compressed size equal
to the original size) exactly when the transcoded artifact is strictly
larger than the original and no format conversion is in effect; at equal
size, or whenever a conversion is in effect, the transcoded artifact is
kept, for the video policy and the image policy alike; a HEIC/HEIF image
input takes the conversion early return and always keeps the converted
artifact, bypassing the policy. -/
theorem c2_never_worse_policy (o c : Nat) (iExt oExt : Str) :
    (o < c → iExt = oExt → ¬ (iExt = strOf "heic" ∨ iExt = strOf "heif") →
      videoSizePolicy o c iExt oExt = (ArtifactBytes.original, o) ∧
      imageSizePolicy o c iExt oExt = (ArtifactBytes.original, o)) ∧
    (c ≤ o →
      videoSizePolicy o c iExt oExt = (ArtifactBytes.transcoded, c) ∧
      imageSizePolicy o c iExt oExt = (ArtifactBytes.transcoded, c)) ∧
    (iExt ≠ oExt → oExt ≠ [] →
      videoSizePolicy o c iExt oExt = (ArtifactBytes.transcoded, c) ∧
      imageSizePolicy o c iExt oExt = (ArtifactBytes.transcoded, c)) ∧
    (iExt = strOf "heic" ∨ iExt = strOf "heif" →
      imageSizePolicy o c iExt oExt = (ArtifactBytes.transcoded, c)) := by
  refine ⟨fun hlt heq hn => ?_, fun hle => ?_, fun hne hnil => ?_, fun hh => ?_⟩
  · subst heq
    constructor
    · simp [videoSizePolicy, hlt]
    · simp only [imageSizePolicy]
      rw [if_neg hn]
      split
      · simp_all
      · simp_all
  · constructor
    · simp [videoSizePolicy, Nat.not_lt.mpr hle]
    · simp only [imageSizePolicy]
      split
      · rfl
      · simp [Nat.not_lt.mpr hle]
  · constructor
    · simp [videoSizePolicy, hne]
    · simp only [imageSizePolicy]
      split
      · rfl
      · simp [hnil, hne]
  · simp [imageSizePolicy, hh]

/-- Claim C2, witness: the amended policy at a concrete non-shrinking,
non-converting, non-HEIC transcode substitutes the original, and a
concrete HEIC input keeps the converted artifact. -/
theorem c2_never_worse_policy_witness :
    videoSizePolicy 50 80 (strOf ".mp4") (strOf ".mp4") = (ArtifactBytes.original, 50) ∧
    imageSizePolicy 50 80 (strOf "webp") (strOf "webp") = (ArtifactBytes.original, 50) ∧
    imageSizePolicy 50 80 (strOf "heic") (strOf "heic") = (ArtifactBytes.transcoded, 80) :=
  ⟨((c2_never_worse_policy 50 80 (strOf ".mp4") (strOf ".mp4")).1
      (by decide) rfl (by decide)).1,
   ((c2_never_worse_policy 50 80 (strOf "webp") (strOf "webp")).1
      (by decide) rfl (by decide)).2,
   (c2_never_worse_policy 50 80 (strOf "heic") (strOf "heic")).2.2.2
      (Or.inl rfl)⟩

/-- Claim C3, counterexample: in the GUI server a failed video transcode
does not end with the original bytes at the planned path — the partial
artifact is unlinked and nothing is copied, so the claim that every
failed item's original is copied to the planned path is false. -/
theorem c3_counterexample :
    guiFailureCleanup MediaKind.video PathContent.partialBytes ≠
      PathContent.originalBytes := by
  decide

/-- Helper: whenever the collision loop returns a path, that path was
not among the paths that exist on disk — the loop only stops on a
candidate whose existence probe failed. -/
theorem collisionLoop_fresh (disk : List Str) (name ext : Str) :
    ∀ (fuel k : Nat) (p : Str),
      collisionLoop disk name ext fuel k = some p → p ∉ disk := by
  intro fuel
  induction fuel with
  | zero => intro k p h; simp [collisionLoop] at h
  | succ n ih =>
      intro k p h
      by_cases hc : candidatePath name ext k ∈ disk
      · rw [collisionLoop, if_pos hc] at h
        exact ih (k + 1) p h
      · rw [collisionLoop, if_neg hc] at h
        cases h
        exact hc

/-- Claim C3 (amended): on transcode failure the CLI batch processor
re-plans the output path with the same filesystem-probing collision
loop, now seeing whatever the failed transcode left behind, and copies
the original bytes to the re-planned path, deleting nothing: when no
artifact occupies the planned path the original lands exactly there,
but when a partial artifact occupies the planned path the loop diverts
around it, so the original lands at a counter-suffixed sibling and the
partial artifact stays at the planned path; the GUI server copies the
original to the planned path only for failed images, and for failed
videos deletes any partially-written artifact and copies nothing. -/
theorem c3_failure_fallback (disk : List Str) (name ext : Str) (fuel : Nat) (p : Str)
    (h : cliFailureReplan disk name ext fuel = some p) :
    p ∉ disk ∧
    (candidatePath name ext 0 ∉ disk → p = candidatePath name ext 0) ∧
    (candidatePath name ext 0 ∈ disk → p ≠ candidatePath name ext 0) ∧
    (∀ left : PathContent,
      guiFailureCleanup MediaKind.image left = PathContent.originalBytes ∧
      guiFailureCleanup MediaKind.video left = PathContent.absent) := by
  refine ⟨collisionLoop_fresh disk name ext fuel 0 p h, ?_, ?_,
    fun left => ⟨rfl, rfl⟩⟩
  · intro h0
    cases fuel with
    | zero => simp [cliFailureReplan, collisionLoop] at h
    | succ n =>
        unfold cliFailureReplan at h
        rw [collisionLoop, if_neg h0] at h
        exact (Option.some_inj.mp h).symm
  · intro h0 heq
    exact collisionLoop_fresh disk name ext fuel 0 p h (heq ▸ h0)

/-- Claim C3, witness: a partial artifact occupies the planned path
`v.mp4`; the re-planning catch copies the original to the fresh sibling
`v(1).mp4` and the partial artifact at the planned path stays. -/
theorem c3_failure_fallback_witness :
    strOf "v(1).mp4" ∉ [strOf "v.mp4"] ∧
    (candidatePath (strOf "v") (strOf ".mp4") 0 ∉ [strOf "v.mp4"] →
      strOf "v(1).mp4" = candidatePath (strOf "v") (strOf ".mp4") 0) ∧
    (candidatePath (strOf "v") (strOf ".mp4") 0 ∈ [strOf "v.mp4"] →
      strOf "v(1).mp4" ≠ candidatePath (strOf "v") (strOf ".mp4") 0) ∧
    (∀ left : PathContent,
      guiFailureCleanup MediaKind.image left = PathContent.originalBytes ∧
      guiFailureCleanup MediaKind.video left = PathContent.absent) :=
  c3_failure_fallback [strOf "v.mp4"] (strOf "v") (strOf ".mp4") 2
    (strOf "v(1).mp4") (by decide)

/-- Helper: the CLI summary fold counts every settled item as a success
and never increments the failure counter, from any starting totals. -/
theorem cliRun_fold_counts (items : List ItemOutcome) :
    ∀ acc : CliTotals,
      (items.foldl cliItemStep acc).successCount = acc.successCount + items.length ∧
      (items.foldl cliItemStep acc).failCount = acc.failCount := by
  induction items with
  | nil => intro acc; simp
  | cons o rest ih =>
      intro acc
      have h := ih (cliItemStep acc o)
      cases o with
      | success orig comp =>
          simpa [cliItemStep, Nat.add_comm, Nat.add_assoc, Nat.add_left_comm] using h
      | failure orig =>
          simpa [cliItemStep, Nat.add_comm, Nat.add_assoc, Nat.add_left_comm] using h

/-- Helper: the GUI summary fold counts successes and failures
separately and counts every settled item as processed. -/
theorem guiRun_fold_counts (items : List ItemOutcome) :
    ∀ acc : GuiResults,
      (items.foldl guiItemStep acc).success =
        acc.success + (items.countP (fun o => isSuccessOutcome o)) ∧
      (items.foldl guiItemStep acc).failed =
        acc.failed + (items.countP (fun o => isFailureOutcome o)) ∧
      (items.foldl guiItemStep acc).processed = acc.processed + items.length := by
  induction items with
  | nil => intro acc; simp
  | cons o rest ih =>
      intro acc
      obtain ⟨ha, hb, hc⟩ := ih (guiItemStep acc o)
      cases o <;>
        simp [guiItemStep, List.countP_cons, isSuccessOutcome, isFailureOutcome]
          at ha hb hc ⊢ <;>
        omega

/-- Claim C4, counterexample: in the CLI batch run of the scenario (five
images and one video succeed, one video's transcode fails), the summary
does not show 6 succeeded and 1 failed: the `catch` block counts the
copied-original fallback as a success, so it shows 7 succeeded and 0
failed. -/
theorem c4_counterexample :
    ¬ ((cliRun scenarioOutcomes).successCount = 6 ∧
       (cliRun scenarioOutcomes).failCount = 1) := by
  decide

/-- Claim C4 (amended): the GUI server counts a transcode-failed item in
its failure counter (the scenario reports 6 succeeded, 1 failed, 7
processed), while the CLI batch summary counts every settled item —
including copied-original fallbacks — as a success, with a failure count
that is always zero (the scenario reports 7 succeeded, 0 failed); both
always report processed counts and aggregate byte totals. -/
theorem c4_summary_counts (items : List ItemOutcome) :
    (cliRun items).successCount = items.length ∧
    (cliRun items).failCount = 0 ∧
    (guiRun items).success = items.countP (fun o => isSuccessOutcome o) ∧
    (guiRun items).failed = items.countP (fun o => isFailureOutcome o) ∧
    (guiRun items).processed = items.length ∧
    guiRun scenarioOutcomes =
      { success := 6, failed := 1, processed := 7,
        totalOriginal := 9500, totalCompressed := 5210 } ∧
    cliRun scenarioOutcomes =
      { successCount := 7, failCount := 0,
        totalOriginal := 17500, totalCompressed := 13210 } := by
  have h1 := cliRun_fold_counts items ⟨0, 0, 0, 0⟩
  have h2 := guiRun_fold_counts items ⟨0, 0, 0, 0, 0⟩
  refine ⟨?_, ?_, ?_, ?_, ?_, by decide, by decide⟩
  · simpa [cliRun] using h1.1
  · simpa [cliRun] using h1.2
  · simpa [guiRun] using h2.1
  · simpa [guiRun] using h2.2.1
  · simpa [guiRun] using h2.2.2

/-- Claim C7: a hardware encoder candidate is marked available only when
it is both present in the codec tool's listing and passes the smoke
test; a candidate that is listed but fails its smoke test is reported
unavailable, and negotiating its id returns exactly the next available
profile of the fixed priority order (NVENC, AMF, QuickSync, x264),
emitting at least one fallback warning; negotiation is total, so a
fallback is never a failure. -/
theorem c7_encoder_negotiation :
    ∀ (listed smoke : Encoder → Bool) (e : Encoder),
      e ∈ [Encoder.nvenc, Encoder.amf, Encoder.qsv] →
      listed e = true → smoke e = false →
      (detectAvailableEncoders listed smoke).get e = false ∧
      some (getEncoderConfig (detectAvailableEncoders listed smoke) e).1 =
        specNextProfile (detectAvailableEncoders listed smoke) e ∧
      (getEncoderConfig (detectAvailableEncoders listed smoke) e).2 ≠ [] := by
  decide

/-- Claim C7, witness: with every candidate listed but the NVENC smoke
test failing, detection reports NVENC unavailable and negotiating NVENC
falls back to AMF, the next profile in priority order, with a warning. -/
theorem c7_encoder_negotiation_witness :
    (detectAvailableEncoders (fun _ => true)
        (fun e => !(e = Encoder.nvenc : Bool))).get Encoder.nvenc = false ∧
    some (getEncoderConfig
        (detectAvailableEncoders (fun _ => true) (fun e => !(e = Encoder.nvenc : Bool)))
        Encoder.nvenc).1 =
      specNextProfile
        (detectAvailableEncoders (fun _ => true) (fun e => !(e = Encoder.nvenc : Bool)))
        Encoder.nvenc ∧
    (getEncoderConfig
        (detectAvailableEncoders (fun _ => true) (fun e => !(e = Encoder.nvenc : Bool)))
        Encoder.nvenc).2 ≠ [] :=
  c7_encoder_negotiation (fun _ => true) (fun e => !(e = Encoder.nvenc : Bool))
    Encoder.nvenc (by decide) (by decide) (by decide)

/-- Claim C1, counterexample: two distinct media items whose capture
dates yield the same base name, planned concurrently (both
`determineTargetFile` calls probe the disk before either output is
written, as happens with image concurrency at least two), resolve to
the same final path: the collision loop consults only `fs.existsSync`,
and no in-run reservation set exists in the code. -/
theorem c1_counterexample :
    concurrentSamplePair =
      some (strOf "20210313-143211.jpg", strOf "20210313-143211.jpg") := by
  decide

/-- Claim C1 (amended): collision resolution appends an incrementing
counter until the candidate path does not exist on disk, so a chosen
path never overwrites an existing file, and any item planned after a
prior item's path is on disk resolves to a different path; the check is
against the filesystem only, not an in-run reservation set, so
distinctness holds only for sequential planning, not concurrent
planning. -/
theorem c1_collision_resolution (disk : List Str) (name ext : Str)
    (fuel k : Nat) (p : Str)
    (h : collisionLoop disk name ext fuel k = some p) :
    p ∉ disk ∧
    ∀ (disk' : List Str) (name' ext' : Str) (fuel' k' : Nat) (q : Str),
      p ∈ disk' → collisionLoop disk' name' ext' fuel' k' = some q → q ≠ p := by
  refine ⟨collisionLoop_fresh disk name ext fuel k p h, ?_⟩
  intro disk' name' ext' fuel' k' q hp hq hqp
  exact collisionLoop_fresh disk' name' ext' fuel' k' q hq (hqp ▸ hp)

/-- Claim C1, witness: planning `a.jpg` against a disk already holding
`a.jpg` yields the fresh path `a(1).jpg`, which is not on disk; any
later sequential planning against a disk holding `a(1).jpg` avoids it. -/
theorem c1_collision_resolution_witness :
    strOf "a(1).jpg" ∉ [strOf "a.jpg"] ∧
    ∀ (disk' : List Str) (name' ext' : Str) (fuel' k' : Nat) (q : Str),
      strOf "a(1).jpg" ∈ disk' →
      collisionLoop disk' name' ext' fuel' k' = some q → q ≠ strOf "a(1).jpg" :=
  c1_collision_resolution [strOf "a.jpg"] (strOf "a") (strOf ".jpg") 2 0
    (strOf "a(1).jpg") (by decide)

/-- Helper: the pool invariant holds initially. -/
theorem poolInv_init {ω : Type} (N C : Nat) (f : Nat → ω) :
    poolInv N C f (PoolState.init ω) := by
  refine ⟨Nat.zero_le N, Nat.zero_le C, ?_, ?_⟩
  · simp [PoolState.init]
  · intro p hp; simp [PoolState.init] at hp

/-- Helper: the pool invariant is preserved by every base transition. -/
theorem poolInv_step {ω : Type} (N C : Nat) (f : Nat → ω) (s t : PoolState ω)
    (hst : PoolStep N C f s t) (hinv : poolInv N C f s) : poolInv N C f t := by
  obtain ⟨hN, hC, hperm, hvals⟩ := hinv
  cases hst with
  | launch hc hn hf =>
      refine ⟨hn, ?_, ?_, hvals⟩
      · simpa using Nat.succ_le_of_lt hf
      · rw [List.range_succ]
        have h2 : (s.inFlight ++ [s.next] ++ s.settled.map Prod.fst).Perm
            (s.inFlight ++ s.settled.map Prod.fst ++ [s.next]) := by
          rw [List.append_assoc, List.append_assoc]
          exact List.Perm.append_left _ List.perm_append_comm
        exact h2.trans (hperm.append_right [s.next])
  | settle i hi =>
      refine ⟨hN, ?_, ?_, ?_⟩
      · exact le_trans (List.length_erase_le i s.inFlight) hC
      · have h1 : (s.inFlight.erase i ++ [i]).Perm s.inFlight :=
          List.perm_append_comm.trans (List.perm_cons_erase hi).symm
        have hmap : (s.settled ++ [(i, f i)]).map Prod.fst =
            s.settled.map Prod.fst ++ [i] := by simp
        rw [hmap]
        have h2 : (s.inFlight.erase i ++ (s.settled.map Prod.fst ++ [i])).Perm
            (s.inFlight.erase i ++ [i] ++ s.settled.map Prod.fst) := by
          rw [List.append_assoc]
          exact List.Perm.append_left _ List.perm_append_comm
        exact h2.trans ((h1.append_right _).trans hperm)
      · intro p hp
        rcases List.mem_append.mp hp with h | h
        · exact hvals p h
        · simp at h; simp [h]

/-- Helper: every reachable pool state satisfies the invariant. -/
theorem poolInv_reachable {ω : Type} (N C : Nat) (f : Nat → ω) (s : PoolState ω)
    (hr : PoolReachable N C f s) : poolInv N C f s := by
  induction hr with
  | refl => exact poolInv_init N C f
  | tail hab hbc ih => exact poolInv_step N C f _ _ hbc ih

/-- Helper: base transitions never set the cancellation flag, so states
reachable through them keep it unset. -/
theorem poolReachable_not_cancelled {ω : Type} (N C : Nat) (f : Nat → ω)
    (s : PoolState ω) (hr : PoolReachable N C f s) : s.cancelled = false := by
  induction hr with
  | refl => rfl
  | tail hab hbc ih => cases hbc with
      | launch hc hn hf => exact ih
      | settle i hi => exact ih

/-- Helper: a terminal state of the base pool has an empty in-flight set
and, when the bound is positive, has launched all `N` tasks. -/
theorem poolTerminal_base {ω : Type} (N C : Nat) (f : Nat → ω) (s : PoolState ω)
    (hterm : ∀ t, ¬ PoolStep N C f s t) (hcanc : s.cancelled = false)
    (hC : 1 ≤ C) (hN : s.next ≤ N) : s.inFlight = [] ∧ s.next = N := by
  have hempty : s.inFlight = [] := by
    cases hin : s.inFlight with
    | nil => rfl
    | cons i l =>
        exact absurd (PoolStep.settle s i (by rw [hin]; exact List.mem_cons_self i l))
          (hterm _)
  refine ⟨hempty, le_antisymm hN ?_⟩
  by_contra hlt
  push_neg at hlt
  exact hterm _ (PoolStep.launch s hcanc hlt (by rw [hempty]; simpa using hC))

/-- Claim C8: for `N` tasks at concurrency `C` with `1 ≤ C ≤ N`, every
reachable state of the worker pool has at most `C` tasks in flight, and
in any terminal reachable state every one of the `N` tasks has settled
exactly once: the settled indices are a permutation of `0, …, N-1`. -/
theorem c8_pool_bounded_complete {ω : Type} (N C : Nat) (f : Nat → ω)
    (hC : 1 ≤ C) (_hCN : C ≤ N) (s : PoolState ω) (hr : PoolReachable N C f s) :
    s.inFlight.length ≤ C ∧
    ((∀ t, ¬ PoolStep N C f s t) →
      (s.settled.map Prod.fst).Perm (List.range N)) := by
  obtain ⟨hN, hlen, hperm, hvals⟩ := poolInv_reachable N C f s hr
  refine ⟨hlen, fun hterm => ?_⟩
  have hcanc := poolReachable_not_cancelled N C f s hr
  obtain ⟨hin, hnext⟩ := poolTerminal_base N C f s hterm hcanc hC hN
  rw [hin] at hperm
  simpa [hnext] using hperm

/-- Claim C8, witness: a one-task run at concurrency one: after
launching and settling task 0 the pool is terminal, within bound, and
task 0 settled exactly once. -/
theorem c8_pool_bounded_complete_witness :
    (PoolState.mk 1 ([] : List Nat) [(0, true)] false).inFlight.length ≤ 1 ∧
    ((∀ t, ¬ PoolStep 1 1 (fun _ => true)
        (PoolState.mk 1 ([] : List Nat) [(0, true)] false) t) →
      ((PoolState.mk 1 ([] : List Nat) [(0, true)] false).settled.map Prod.fst).Perm
        (List.range 1)) := by
  have h1 : PoolStep 1 1 (fun _ => true) (PoolState.init Bool)
      (PoolState.mk 1 [0] [] false) :=
    PoolStep.launch (PoolState.init Bool) rfl (by decide) (by decide)
  have h2 : PoolStep 1 1 (fun _ => true) (PoolState.mk 1 [0] [] false)
      (PoolState.mk 1 ([] : List Nat) [(0, true)] false) :=
    PoolStep.settle (PoolState.mk 1 [0] [] false) 0 (by decide)
  exact c8_pool_bounded_complete 1 1 (fun _ => true) (by decide) (by decide) _
    (Relation.ReflTransGen.head h1 (Relation.ReflTransGen.single h2))

/-- Helper: a single GUI-pool transition from a cancelled state keeps
the flag, keeps the launch pointer, and at most moves one in-flight task
(with its value) to the settled list. -/
theorem poolStepC_cancelled_step {ω : Type} (N C : Nat) (f : Nat → ω)
    (b c : PoolState ω) (h : PoolStepC N C f b c) (hc : b.cancelled = true) :
    c.cancelled = true ∧ c.next = b.next ∧
    (c.settled ++ c.inFlight.map (fun j => (j, f j))).Perm
      (b.settled ++ b.inFlight.map (fun j => (j, f j))) := by
  cases h with
  | base _ hstep =>
      cases hstep with
      | launch hcf hn hf => simp [hc] at hcf
      | settle i hi =>
          refine ⟨hc, rfl, ?_⟩
          have hparm := (List.perm_cons_erase hi).map (fun j => (j, f j))
          show ((b.settled ++ [(i, f i)]) ++
              (b.inFlight.erase i).map (fun j => (j, f j))).Perm _
          have e1 : (b.settled ++ [(i, f i)]) ++
              (b.inFlight.erase i).map (fun j => (j, f j)) =
              b.settled ++ (i :: b.inFlight.erase i).map (fun j => (j, f j)) := by
            rw [List.append_assoc]
            rfl
          rw [e1]
          exact List.Perm.append_left _ hparm.symm
  | cancel hcf => simp [hc] at hcf

/-- Helper: from a state with the cancellation flag set, every GUI-pool
run keeps the flag set, launches nothing, and only moves in-flight tasks
(with their settled values) to the settled list. -/
theorem poolRunC_cancelled {ω : Type} (N C : Nat) (f : Nat → ω) (s t : PoolState ω)
    (hrun : Relation.ReflTransGen (PoolStepC N C f) s t) (hcanc : s.cancelled = true) :
    t.cancelled = true ∧ t.next = s.next ∧
    (t.settled ++ t.inFlight.map (fun j => (j, f j))).Perm
      (s.settled ++ s.inFlight.map (fun j => (j, f j))) := by
  induction hrun with
  | refl => exact ⟨hcanc, rfl, List.Perm.refl _⟩
  | tail hab hbc ih =>
      obtain ⟨hca, hna, hpa⟩ := ih
      obtain ⟨hcc, hnc, hpc⟩ := poolStepC_cancelled_step _ _ _ _ _ hbc hca
      exact ⟨hcc, hnc.trans hna, hpc.trans hpa⟩

/-- Claim C9: the GUI worker pool's cancellation is cooperative: any
transition from a state with the flag set leaves the launch pointer
unchanged (the flag is checked before each launch and no further task is
issued), and from any cancelled state every run to a terminal state lets
the already-launched tasks settle — the terminal state has nothing in
flight, the same launch pointer, and exactly the outcomes collected
before cancellation plus one settlement per task that was in flight. -/
theorem c9_cooperative_cancellation {ω : Type} (N C : Nat) (f : Nat → ω)
    (s t : PoolState ω) (hcanc : s.cancelled = true)
    (hrun : Relation.ReflTransGen (PoolStepC N C f) s t)
    (hterm : ∀ u, ¬ PoolStepC N C f t u) :
    (∀ u v, PoolStepC N C f u v → u.cancelled = true → v.next = u.next) ∧
    t.next = s.next ∧ t.inFlight = [] ∧
    t.settled.Perm (s.settled ++ s.inFlight.map (fun j => (j, f j))) := by
  obtain ⟨hct, hnt, hpt⟩ := poolRunC_cancelled N C f s t hrun hcanc
  have hempty : t.inFlight = [] := by
    cases hin : t.inFlight with
    | nil => rfl
    | cons i l =>
        exact absurd
          (PoolStepC.base _ _
            (PoolStep.settle t i (by rw [hin]; exact List.mem_cons_self i l)))
          (hterm _)
  refine ⟨?_, hnt, hempty, ?_⟩
  · intro u v huv hcu
    cases huv with
    | base _ hstep =>
        cases hstep with
        | launch hc hn hf => simp [hcu] at hc
        | settle i hi => rfl
    | cancel hc => rfl
  · rw [hempty] at hpt
    simpa using hpt

/-- Claim C9, witness: a cancelled one-task run: task 0 is in flight at
cancellation, settles, and the terminal state reports exactly that
outcome with no new launches. -/
theorem c9_cooperative_cancellation_witness :
    (∀ u v, PoolStepC 1 1 (fun _ => false) u v → u.cancelled = true → v.next = u.next) ∧
    (PoolState.mk 1 ([] : List Nat) [(0, false)] true).next =
      (PoolState.mk 1 [0] ([] : List (Nat × Bool)) true).next ∧
    (PoolState.mk 1 ([] : List Nat) [(0, false)] true).inFlight = [] ∧
    (PoolState.mk 1 ([] : List Nat) [(0, false)] true).settled.Perm
      ((PoolState.mk 1 [0] ([] : List (Nat × Bool)) true).settled ++
        (PoolState.mk 1 [0] ([] : List (Nat × Bool)) true).inFlight.map
          (fun j => (j, false))) := by
  have h1 : PoolStepC 1 1 (fun _ => false)
      (PoolState.mk 1 [0] ([] : List (Nat × Bool)) true)
      (PoolState.mk 1 ([] : List Nat) [(0, false)] true) :=
    PoolStepC.base _ _
      (PoolStep.settle (PoolState.mk 1 [0] ([] : List (Nat × Bool)) true) 0 (by decide))
  have hterm : ∀ u, ¬ PoolStepC 1 1 (fun _ => false)
      (PoolState.mk 1 ([] : List Nat) [(0, false)] true) u := by
    intro u h
    cases h with
    | base _ hstep =>
        cases hstep with
        | launch hc hn hf => simp at hc
        | settle i hi => simp at hi
    | cancel hc => simp at hc
  exact c9_cooperative_cancellation 1 1 (fun _ => false)
    (PoolState.mk 1 [0] ([] : List (Nat × Bool)) true)
    (PoolState.mk 1 ([] : List Nat) [(0, false)] true) rfl
    (Relation.ReflTransGen.single h1) hterm

/-- Helper: when the settled records have pairwise distinct task
indices, looking up an index returns the value recorded for it. -/
theorem settledLookup_eq {ω : Type} (settled : List (Nat × ω)) :
    ∀ (i : Nat) (w : ω), (settled.map Prod.fst).Nodup → (i, w) ∈ settled →
      settledLookup settled i = some w := by
  induction settled with
  | nil => intro i w _ hmem; simp at hmem
  | cons p rest ih =>
      intro i w hnd hmem
      obtain ⟨j, u⟩ := p
      simp only [List.map_cons, List.nodup_cons] at hnd
      rcases List.mem_cons.mp hmem with h | h
      · obtain ⟨h1, h2⟩ := Prod.mk.injEq .. ▸ h
        subst h1; subst h2
        simp [settledLookup]
      · have hji : (j == i) = false := by
          apply beq_eq_false_iff_ne.mpr
          intro hji
          subst hji
          exact hnd.1 (List.mem_map.mpr ⟨(j, w), h, rfl⟩)
        have : settledLookup ((j, u) :: rest) i = settledLookup rest i := by
          simp [settledLookup, List.find?, hji]
        rw [this]
        exact ih i w hnd.2 h

/-- Claim C10: for every item list and processor, any terminal run of
`parallelProcess` (at positive concurrency) resolves with an array of
exactly one outcome per submitted item, positionally aligned with
submission order: the i-th slot holds the processor's value on item i,
or the `{error, item}` record when the processor rejected — whatever
order the tasks settled in; every slot is a fulfilled value, so the
returned promise never rejects. -/
theorem c10_results_positional {α ε ι : Type} [Inhabited α]
    (items : List ι) (processor : ι → Except ε α) (C : Nat) (hC : 1 ≤ C)
    (s : PoolState (SettledValue α ε ι))
    (hr : PoolReachable items.length C (taskOutcome processor items) s)
    (hterm : ∀ t, ¬ PoolStep items.length C (taskOutcome processor items) s t) :
    resultsArray s = (List.range items.length).map
      (fun i => some (taskOutcome processor items i)) := by
  obtain ⟨hN, hlen, hperm, hvals⟩ := poolInv_reachable _ _ _ s hr
  have hcanc := poolReachable_not_cancelled _ _ _ s hr
  obtain ⟨hin, hnext⟩ := poolTerminal_base _ _ _ s hterm hcanc hC hN
  rw [hin] at hperm
  simp only [List.nil_append] at hperm
  have hnd : (s.settled.map Prod.fst).Nodup :=
    hperm.nodup_iff.mpr (List.nodup_range _)
  unfold resultsArray
  rw [hnext]
  apply List.map_congr_left
  intro i hi
  have hikey : i ∈ s.settled.map Prod.fst := by
    rw [hnext] at hperm
    exact hperm.mem_iff.mpr hi
  obtain ⟨p, hp, hfst⟩ := List.mem_map.mp hikey
  have hpair : (i, p.2) ∈ s.settled := by
    have : (i, p.2) = p := by
      rw [← hfst]
    rw [this]
    exact hp
  have hval : p.2 = taskOutcome processor items p.1 := hvals p hp
  rw [settledLookup_eq s.settled i p.2 hnd hpair, hval, hfst]

/-- Claim C10, witness: a two-item run at concurrency one in which item
0 fulfils and item 1 rejects: the terminal results array is positionally
aligned — slot 0 holds the fulfilled value, slot 1 the
`{error, item}` record. -/
theorem c10_results_positional_witness :
    resultsArray
        (PoolState.mk 2 ([] : List Nat)
          [(0, SettledValue.ok true), (1, SettledValue.failed 7 false)] false) =
      (List.range 2).map (fun i =>
        some (taskOutcome
          (fun b => if b then Except.ok b else Except.error (7 : Nat)) [true, false] i)) := by
  have hstep1 : PoolStep 2 1
      (taskOutcome (fun b => if b then Except.ok b else Except.error (7 : Nat)) [true, false])
      (PoolState.init (SettledValue Bool Nat Bool))
      (PoolState.mk 1 [0] [] false) :=
    PoolStep.launch _ rfl (by decide) (by decide)
  have hstep2 : PoolStep 2 1
      (taskOutcome (fun b => if b then Except.ok b else Except.error (7 : Nat)) [true, false])
      (PoolState.mk 1 [0] [] false)
      (PoolState.mk 1 ([] : List Nat) [(0, SettledValue.ok true)] false) :=
    PoolStep.settle (PoolState.mk 1 [0] [] false) 0 (by decide)
  have hstep3 : PoolStep 2 1
      (taskOutcome (fun b => if b then Except.ok b else Except.error (7 : Nat)) [true, false])
      (PoolState.mk 1 ([] : List Nat) [(0, SettledValue.ok true)] false)
      (PoolState.mk 2 [1] [(0, SettledValue.ok true)] false) :=
    PoolStep.launch _ rfl (by decide) (by decide)
  have hstep4 : PoolStep 2 1
      (taskOutcome (fun b => if b then Except.ok b else Except.error (7 : Nat)) [true, false])
      (PoolState.mk 2 [1] [(0, SettledValue.ok true)] false)
      (PoolState.mk 2 ([] : List Nat)
        [(0, SettledValue.ok true), (1, SettledValue.failed 7 false)] false) :=
    PoolStep.settle (PoolState.mk 2 [1] [(0, SettledValue.ok true)] false) 1 (by decide)
  have hterm : ∀ t, ¬ PoolStep 2 1
      (taskOutcome (fun b => if b then Except.ok b else Except.error (7 : Nat)) [true, false])
      (PoolState.mk 2 ([] : List Nat)
        [(0, SettledValue.ok true), (1, SettledValue.failed 7 false)] false) t := by
    intro t h
    cases h with
    | launch hc hn hf => simp at hn
    | settle i hi => simp at hi
  exact c10_results_positional [true, false]
    (fun b => if b then Except.ok b else Except.error (7 : Nat)) 1 (by decide) _
    (Relation.ReflTransGen.head hstep1 (Relation.ReflTransGen.head hstep2
      (Relation.ReflTransGen.head hstep3 (Relation.ReflTransGen.single hstep4)))) hterm

/-- Helper: the extension computed by `extname` is a suffix of the name. -/
theorem extname_suffix (s : Str) : extname s <:+ s := by
  unfold extname
  split
  · exact List.drop_suffix _ s
  · exact List.nil_suffix

/-- Helper: a file name splits into its base name and its extension. -/
theorem mediaBase_append_extname (s : Str) : mediaBase s ++ extname s = s := by
  unfold mediaBase extname
  split
  · next h =>
      have hlen : (s.drop (s.length - (s.reverse.takeWhile (fun c => c ≠ '.')).length - 1)).length =
          s.length - (s.length - (s.reverse.takeWhile (fun c => c ≠ '.')).length - 1) :=
        List.length_drop _ s
      rw [hlen]
      have hk : s.length - (s.length - (s.reverse.takeWhile (fun c => c ≠ '.')).length - 1) ≤ s.length := Nat.sub_le _ _
      have : s.length - (s.length - (s.length - (s.reverse.takeWhile (fun c => c ≠ '.')).length - 1)) =
          s.length - (s.reverse.takeWhile (fun c => c ≠ '.')).length - 1 := by
        omega
      rw [this]
      exact List.take_append_drop _ s
  · simp

/-- Helper: the length of a media extension is four or five characters. -/
theorem mediaExt_length (f : Str) (hmedia : isImage f ∨ isVideo f) :
    (extname f).length = 4 ∨ (extname f).length = 5 := by
  have hfact : ∀ x ∈ IMAGE_EXTENSIONS ++ VIDEO_EXTENSIONS,
      x.length = 4 ∨ x.length = 5 := by decide
  have hmem : lowerStr (extname f) ∈ IMAGE_EXTENSIONS ++ VIDEO_EXTENSIONS := by
    rcases hmedia with h | h
    · exact List.mem_append_left _ h
    · exact List.mem_append_right _ h
  have := hfact _ hmem
  simpa [lowerStr] using this

/-- Helper: no media extension lowercases to `.json`, to `json`, or to
`.jso`. -/
theorem mediaExt_not_jsonlike (f : Str) (hmedia : isImage f ∨ isVideo f) :
    lowerStr (extname f) ≠ strOf ".json" ∧
    lowerStr (extname f) ≠ strOf "json" ∧
    lowerStr (extname f) ≠ strOf ".jso" := by
  have hfact : ∀ x ∈ IMAGE_EXTENSIONS ++ VIDEO_EXTENSIONS,
      x ≠ strOf ".json" ∧ x ≠ strOf "json" ∧ x ≠ strOf ".jso" := by decide
  have hmem : lowerStr (extname f) ∈ IMAGE_EXTENSIONS ++ VIDEO_EXTENSIONS := by
    rcases hmedia with h | h
    · exact List.mem_append_left _ h
    · exact List.mem_append_right _ h
  exact hfact _ hmem

/-- Helper: two suffixes of one list with equal lengths coincide. -/
theorem suffix_eq_of_length_eq {l₁ l₂ l : Str} (h1 : l₁ <:+ l) (h2 : l₂ <:+ l)
    (hl : l₁.length = l₂.length) : l₁ = l₂ :=
  List.IsSuffix.eq_of_length
    (List.suffix_of_suffix_length_le h1 h2 (le_of_eq hl)) hl

/-- Helper: any JSON file whose name starts with the full media file
name is at least six characters longer than the media base name: the
media extension (4 or 5 characters, never a prefix-overlap of `.json` )
plus the `.json` tail forced onto the remainder. -/
theorem tier1_length_lower (fileName j : Str)
    (hmedia : isImage fileName ∨ isVideo fileName)
    (hjson : jsonExtStr <:+ lowerStr j)
    (hpre : fileName <+: j) :
    (mediaBase fileName).length + 6 ≤ j.length := by
  obtain ⟨r, hr⟩ := hpre
  subst hr
  have hsplit := mediaBase_append_extname fileName
  have hflen : fileName.length =
      (mediaBase fileName).length + (extname fileName).length := by
    conv_lhs => rw [← hsplit]
    exact List.length_append _ _
  have hextsuf : lowerStr (extname fileName) <:+ lowerStr fileName :=
    List.IsSuffix.map _ (extname_suffix fileName)
  have hextlen : (lowerStr (extname fileName)).length = (extname fileName).length := by
    simp [lowerStr]
  obtain ⟨hne1, hne2, hne3⟩ := mediaExt_not_jsonlike fileName hmedia
  rw [List.length_append, hflen]
  rcases mediaExt_length fileName hmedia with h45 | h45
  · rcases r with _ | ⟨c, r'⟩
    · exfalso
      rw [List.append_nil] at hjson
      have h1 : lowerStr (extname fileName) <:+ jsonExtStr := by
        apply List.suffix_of_suffix_length_le hextsuf hjson
        rw [hextlen, h45]
        decide
      obtain ⟨t, ht⟩ := h1
      have ht' : t ++ lowerStr (extname fileName) = [ '.' ] ++ strOf "json" :=
        ht.trans (by decide)
      have h2 := (List.append_inj' ht' (by rw [hextlen, h45]; decide)).2
      exact hne2 h2
    · rcases r' with _ | ⟨c2, r''⟩
      · exfalso
        obtain ⟨t, ht⟩ := hjson
        have hlmap : lowerStr (fileName ++ [c]) =
            lowerStr fileName ++ [Char.toLower c] := by
          simp [lowerStr]
        rw [hlmap] at ht
        have hjs : jsonExtStr = strOf ".jso" ++ [ 'n' ] := by decide
        rw [hjs, ← List.append_assoc] at ht
        have h1 := (List.append_inj' ht rfl).1
        have h2 : strOf ".jso" <:+ lowerStr fileName := ⟨t, h1⟩
        have h3 : lowerStr (extname fileName) = strOf ".jso" :=
          suffix_eq_of_length_eq hextsuf h2 (by rw [hextlen, h45]; decide)
        exact hne3 h3
      · simp only [List.length_cons]
        omega
  · rcases r with _ | ⟨c, r'⟩
    · exfalso
      rw [List.append_nil] at hjson
      have h3 : lowerStr (extname fileName) = jsonExtStr :=
        suffix_eq_of_length_eq hextsuf hjson (by rw [hextlen, h45]; decide)
      exact hne1 h3
    · simp only [List.length_cons]
      omega

/-- Helper: any JSON file whose stripped base name is a prefix of the
media base name is at most five characters longer than the media base
name (the stripped `.json` suffix). -/
theorem tier2_length_upper (fileName j : Str)
    (hpre : basenameNoJson j <+: mediaBase fileName) :
    j.length ≤ (mediaBase fileName).length + 5 := by
  have hlen := List.IsPrefix.length_le hpre
  unfold basenameNoJson at hlen
  by_cases hs : jsonExtStr.isSuffixOf j = true ∧ j ≠ jsonExtStr
  · rw [if_pos hs] at hlen
    have h5 : 5 ≤ j.length := by
      have h := List.IsSuffix.length_le ( List.isSuffixOf_iff_suffix.mp hs.1)
      simpa using h
    rw [List.length_take] at hlen
    omega
  · rw [if_neg hs] at hlen
    omega

/-- Helper: one iteration of the fuzzy-match loop preserves the
longest-match invariant (for candidate files of positive length, as all
JSON-suffixed files are). -/
theorem sidecarStep_good (fileName baseName : Str) (seen : List Str)
    (acc : Option Str × Nat) (j : Str) (hj : 0 < j.length)
    (h : sidecarAccGood fileName baseName seen acc) :
    sidecarAccGood fileName baseName (seen ++ [j])
      (sidecarStep fileName baseName acc j) := by
  have hmem : ∀ x ∈ seen ++ [j], x ∈ seen ∨ x = j := by
    intro x hx
    rcases List.mem_append.mp hx with hxs | hxj
    · exact Or.inl hxs
    · exact Or.inr (by simpa using hxj)
  by_cases hP : stepMatch fileName baseName j
  · have hstep : sidecarStep fileName baseName acc j =
        if acc.2 < j.length then (some j, j.length) else acc := by
      rcases hP with ht1 | ⟨hn1, hp2, hl2⟩
      · have hb : fileName.isPrefixOf j = true := List.isPrefixOf_iff_prefix.mpr ht1
        simp [sidecarStep, hb]
      · have hb1 : fileName.isPrefixOf j = false :=
          Bool.eq_false_iff.mpr (fun hc => hn1 ( List.isPrefixOf_iff_prefix.mp hc))
        have hb2 : (basenameNoJson j).isPrefixOf baseName = true :=
          List.isPrefixOf_iff_prefix.mpr hp2
        simp [sidecarStep, hb1, hb2, hl2]
    rw [hstep]
    by_cases hlt : acc.2 < j.length
    · rw [if_pos hlt]
      right
      refine ⟨j, rfl, List.mem_append_right _ (by simp), hP, ?_⟩
      intro x hx hxP
      rcases hmem x hx with hxs | rfl
      · rcases h with ⟨hacc, hnone⟩ | ⟨m, hacc, _, _, hmax⟩
        · exact absurd hxP (hnone x hxs)
        · have := hmax x hxs hxP
          rw [hacc] at hlt
          exact le_of_lt (lt_of_le_of_lt this hlt)
      · exact le_refl _
    · rw [if_neg hlt]
      rcases h with ⟨hacc, hnone⟩ | ⟨m, hacc, hmmem, hmP, hmax⟩
      · exfalso
        apply hlt
        rw [hacc]
        exact hj
      · right
        refine ⟨m, hacc, List.mem_append_left _ hmmem, hmP, ?_⟩
        intro x hx hxP
        rcases hmem x hx with hxs | rfl
        · exact hmax x hxs hxP
        · push_neg at hlt
          rw [hacc] at hlt
          exact hlt
  · have hstep : sidecarStep fileName baseName acc j = acc := by
      by_cases h1 : fileName.isPrefixOf j = true
      · exact absurd (Or.inl ( List.isPrefixOf_iff_prefix.mp h1)) hP
      · have h1f : fileName.isPrefixOf j = false := Bool.eq_false_iff.mpr h1
        by_cases h2 : (basenameNoJson j).isPrefixOf baseName = true
        · by_cases h3 : 8 ≤ (basenameNoJson j).length
          · exact absurd
              (Or.inr ⟨fun hc => h1 (List.isPrefixOf_iff_prefix.mpr hc),
                List.isPrefixOf_iff_prefix.mp h2, h3⟩) hP
          · simp [sidecarStep, h1f, h2, h3]
        · have h2f : (basenameNoJson j).isPrefixOf baseName = false :=
            Bool.eq_false_iff.mpr h2
          simp [sidecarStep, h1f, h2f]
    rw [hstep]
    rcases h with ⟨hacc, hnone⟩ | ⟨m, hacc, hmmem, hmP, hmax⟩
    · left
      refine ⟨hacc, ?_⟩
      intro x hx
      rcases hmem x hx with hxs | rfl
      · exact hnone x hxs
      · exact hP
    · right
      refine ⟨m, hacc, List.mem_append_left _ hmmem, hmP, ?_⟩
      intro x hx hxP
      rcases hmem x hx with hxs | rfl
      · exact hmax x hxs hxP
      · exact absurd hxP hP

/-- Helper: the fuzzy-match fold satisfies the longest-match invariant
over the whole candidate list. -/
theorem sidecarFold_good (fileName baseName : Str) :
    ∀ (l seen : List Str) (acc : Option Str × Nat),
      (∀ j ∈ l, 0 < j.length) →
      sidecarAccGood fileName baseName seen acc →
      sidecarAccGood fileName baseName (seen ++ l)
        (l.foldl (sidecarStep fileName baseName) acc) := by
  intro l
  induction l with
  | nil => intro seen acc _ h; simpa using h
  | cons j rest ih =>
      intro seen acc hpos h
      have h1 := sidecarStep_good fileName baseName seen acc j (hpos j (by simp)) h
      have h2 := ih (seen ++ [j]) (sidecarStep fileName baseName acc j)
        (fun x hx => hpos x (by simp [hx])) h1
      simpa [List.append_assoc] using h2

/-- Claim C6: for every media file with no exact-name sidecar present
and every set of JSON files in its directory, the fuzzy search prefers
a JSON file whose name starts with the full media file name, returning
a longest such match; only when no such file exists does it fall back
to a JSON file whose stripped base name is a prefix of the media base
name and at least 8 characters long, again returning a longest such
match.  (The loop keeps one shared best-length slot for both tiers, but
a first-tier candidate is always at least `base + 6` characters long
while a second-tier candidate is at most `base + 5`, so the first tier
always dominates.) -/
theorem c6_sidecar_two_tier (dirFiles : List Str) (fileName : Str)
    (hmedia : isImage fileName ∨ isVideo fileName)
    (hex1 : fileName ++ jsonExtStr ∉ dirFiles)
    (hex2 : fileName ++ suppJsonStr ∉ dirFiles) :
    ((∃ j ∈ dirJsonFiles dirFiles, tier1Match fileName j) →
      ∃ m, findJsonSidecar dirFiles fileName = some m ∧
        m ∈ dirJsonFiles dirFiles ∧ tier1Match fileName m ∧
        ∀ j ∈ dirJsonFiles dirFiles, tier1Match fileName j →
          j.length ≤ m.length) ∧
    ((∀ j ∈ dirJsonFiles dirFiles, ¬ tier1Match fileName j) →
      (∃ j ∈ dirJsonFiles dirFiles, tier2Match fileName j) →
      ∃ m, findJsonSidecar dirFiles fileName = some m ∧
        m ∈ dirJsonFiles dirFiles ∧ tier2Match fileName m ∧
        ∀ j ∈ dirJsonFiles dirFiles, tier2Match fileName j →
          j.length ≤ m.length) := by
  have hres : findJsonSidecar dirFiles fileName =
      ((dirJsonFiles dirFiles).foldl
        (sidecarStep fileName (mediaBase fileName)) (none, 0)).1 := by
    unfold findJsonSidecar
    rw [if_neg hex1, if_neg hex2]
  have hjsonsuffix : ∀ j ∈ dirJsonFiles dirFiles, jsonExtStr <:+ lowerStr j := by
    intro j hjmem
    exact List.isSuffixOf_iff_suffix.mp (List.mem_filter.mp hjmem).2
  have hpos : ∀ j ∈ dirJsonFiles dirFiles, 0 < j.length := by
    intro j hjmem
    have h5 : jsonExtStr.length ≤ (lowerStr j).length :=
      List.IsSuffix.length_le (hjsonsuffix j hjmem)
    have he5 : jsonExtStr.length = 5 := by decide
    have hmapl : (lowerStr j).length = j.length := by simp [lowerStr]
    omega
  have hgood := sidecarFold_good fileName (mediaBase fileName)
      (dirJsonFiles dirFiles) [] (none, 0) hpos (Or.inl ⟨rfl, by simp⟩)
  rw [List.nil_append] at hgood
  constructor
  · rintro ⟨j0, hj0mem, hj0t1⟩
    have hstepj0 : stepMatch fileName (mediaBase fileName) j0 := Or.inl hj0t1
    rcases hgood with ⟨hacc, hnone⟩ | ⟨m, hacc, hmmem, hmP, hmax⟩
    · exact absurd hstepj0 (hnone j0 hj0mem)
    · have hmres : findJsonSidecar dirFiles fileName = some m := by
        rw [hres, hacc]
      have hmt1 : tier1Match fileName m := by
        rcases hmP with h | ⟨hn1, hpre2, hlen2⟩
        · exact h
        · exfalso
          have hupper := tier2_length_upper fileName m hpre2
          have hlower := tier1_length_lower fileName j0 hmedia
            (hjsonsuffix j0 hj0mem) hj0t1
          have hle := hmax j0 hj0mem hstepj0
          omega
      refine ⟨m, hmres, hmmem, hmt1, ?_⟩
      intro j hjm hjt1
      exact hmax j hjm (Or.inl hjt1)
  · intro hnot1
    rintro ⟨j0, hj0mem, hj0t2⟩
    have hstepj0 : stepMatch fileName (mediaBase fileName) j0 :=
      Or.inr ⟨hj0t2.1, hj0t2.2.1, hj0t2.2.2⟩
    rcases hgood with ⟨hacc, hnone⟩ | ⟨m, hacc, hmmem, hmP, hmax⟩
    · exact absurd hstepj0 (hnone j0 hj0mem)
    · have hmres : findJsonSidecar dirFiles fileName = some m := by
        rw [hres, hacc]
      have hmt2 : tier2Match fileName m := by
        rcases hmP with h | ⟨hn1, hpre2, hlen2⟩
        · exact absurd h (hnot1 m hmmem)
        · exact ⟨hn1, hpre2, hlen2⟩
      refine ⟨m, hmres, hmmem, hmt2, ?_⟩
      intro j hjm hjt2
      exact hmax j hjm (Or.inr ⟨hjt2.1, hjt2.2.1, hjt2.2.2⟩)

/-- Claim C6, witness: a concrete directory holding a first-tier match,
a shorter second-tier candidate and an unrelated file, probed for a
media file with no exact-name sidecar. -/
theorem c6_sidecar_two_tier_witness :
    ((∃ j ∈ dirJsonFiles
        [strOf "IMG_20210101_123456.jpg.suppl.json", strOf "IMG_20210101.json",
         strOf "readme.txt"],
        tier1Match (strOf "IMG_20210101_123456.jpg") j) →
      ∃ m, findJsonSidecar
          [strOf "IMG_20210101_123456.jpg.suppl.json", strOf "IMG_20210101.json",
           strOf "readme.txt"] (strOf "IMG_20210101_123456.jpg") = some m ∧
        m ∈ dirJsonFiles
          [strOf "IMG_20210101_123456.jpg.suppl.json", strOf "IMG_20210101.json",
           strOf "readme.txt"] ∧
        tier1Match (strOf "IMG_20210101_123456.jpg") m ∧
        ∀ j ∈ dirJsonFiles
          [strOf "IMG_20210101_123456.jpg.suppl.json", strOf "IMG_20210101.json",
           strOf "readme.txt"],
          tier1Match (strOf "IMG_20210101_123456.jpg") j →
            j.length ≤ m.length) ∧
    ((∀ j ∈ dirJsonFiles
        [strOf "IMG_20210101_123456.jpg.suppl.json", strOf "IMG_20210101.json",
         strOf "readme.txt"],
        ¬ tier1Match (strOf "IMG_20210101_123456.jpg") j) →
      (∃ j ∈ dirJsonFiles
        [strOf "IMG_20210101_123456.jpg.suppl.json", strOf "IMG_20210101.json",
         strOf "readme.txt"],
        tier2Match (strOf "IMG_20210101_123456.jpg") j) →
      ∃ m, findJsonSidecar
          [strOf "IMG_20210101_123456.jpg.suppl.json", strOf "IMG_20210101.json",
           strOf "readme.txt"] (strOf "IMG_20210101_123456.jpg") = some m ∧
        m ∈ dirJsonFiles
          [strOf "IMG_20210101_123456.jpg.suppl.json", strOf "IMG_20210101.json",
           strOf "readme.txt"] ∧
        tier2Match (strOf "IMG_20210101_123456.jpg") m ∧
        ∀ j ∈ dirJsonFiles
          [strOf "IMG_20210101_123456.jpg.suppl.json", strOf "IMG_20210101.json",
           strOf "readme.txt"],
          tier2Match (strOf "IMG_20210101_123456.jpg") j →
            j.length ≤ m.length) :=
  c6_sidecar_two_tier
    [strOf "IMG_20210101_123456.jpg.suppl.json", strOf "IMG_20210101.json",
     strOf "readme.txt"]
    (strOf "IMG_20210101_123456.jpg") (Or.inl (by unfold isImage; decide))
    (by decide) (by decide)
